import Mathlib

/-!
Shallow embedding of the two notebooks of the `turkish-llava-notebooks`
repository (`inference_turkish_llava_4bit.ipynb` and
`fine_tuning_turkish_llava_with_qlora.ipynb`).

Pure Python functions are translated to Lean functions over `String` and
`List`.  Calls into third-party libraries (`requests.get`, `PIL.Image.open`,
`Image.save`, `Path.mkdir`, the tokenizer / image processor / `model.generate`
calls, the model-hub `save_pretrained` calls) are modelled as explicit
function parameters returning `Except`, or as entries of an effect trace, so
that the repository's own control flow — and only it — is embedded.
-/

/- ===================== inference notebook ===================== -/

/-- An HTTP response as returned by `requests.get`: a status code and the raw
body bytes (`.content`).  The body type is abstract. -/
structure Response (Bytes : Type) where
  status : Nat
  content : Bytes

/-- `download_image(url)` from the inference notebook:
`content = requests.get(url).content; return Image.open(BytesIO(content))`.
The delegated calls are parameters: `get` models `requests.get` and
`imageOpen` models `Image.open(BytesIO(·))`; both may fail with a library
error of type `E`.  The function reads only `.content` from the response. -/
def download_image {E Bytes Img : Type} (get : String → Except E (Response Bytes))
    (imageOpen : Bytes → Except E Img) (url : String) : Except E Img :=
  (get url).bind fun resp => imageOpen resp.content

/-- `preprocess_prompt(system_prompt, user_prompt)` from the inference
notebook: the implicit concatenation of its three adjacent f-string
literals. -/
def preprocess_prompt (system_prompt user_prompt : String) : String :=
  "<|begin_of_text|><|start_header_id|>system<|end_header_id|>\n\n"
    ++ (system_prompt ++ "<|eot_id|><|start_header_id|>user<|end_header_id|>\n\n")
    ++ ("<image>\n" ++ user_prompt
        ++ "<|eot_id|><|start_header_id|>assistant<|end_header_id|>\n\n")

/-- `inference(model, tokenizer, image_processor, image, prompt,
generation_config)` from the inference notebook.  The four delegated library
calls (`tokenizer_image_token`, `process_images`, `model.generate`,
`tokenizer.batch_decode`) are parameters that may fail; the function chains
them in source order and performs no handling of its own.  The
`.unsqueeze(0).cuda()` / `.to(...)` tensor moves are absorbed into the
abstract result types. -/
def inference {E Ids ImgT OutIds Img Cfg : Type}
    (tokenizer_image_token : String → Except E Ids)
    (process_images : Img → Except E ImgT)
    (generate : Ids → ImgT → Cfg → Except E OutIds)
    (batch_decode : OutIds → Except E (List String))
    (image : Img) (prompt : String) (cfg : Cfg) : Except E (List String) :=
  (tokenizer_image_token prompt).bind fun input_ids =>
    (process_images image).bind fun image_tensor =>
      (generate input_ids image_tensor cfg).bind fun output_ids =>
        batch_decode output_ids

/-- A value of the flat generation-configuration mapping. -/
inductive GenValue
  | bool (b : Bool)
  | nat (n : Nat)
deriving DecidableEq

/-- `generation_config = dict(do_sample=False, max_new_tokens=256)` from the
inference notebook, as an association list. -/
def generation_config : List (String × GenValue) :=
  [("do_sample", GenValue.bool false), ("max_new_tokens", GenValue.nat 256)]

/- ===================== fine-tuning notebook ===================== -/

/-- One conversation turn, i.e. a dict `{"from": ..., "value": ...}`.  The
Python key `from` is rendered as the field `from_` (Lean keyword). -/
structure Turn where
  from_ : String
  value : String
deriving DecidableEq

/-- One JSON record emitted by `preprocess`:
`{"id": ..., "image": ..., "conversations": [...]}`. -/
structure TrainRecord where
  id : String
  image : String
  conversations : List Turn
deriving DecidableEq

/-- A batch as handed to `preprocess` by `ds.map(batched=True)`: a dict of
equally indexed columns, plus the `json` column the function installs. -/
structure Batch (Img : Type) where
  imgid : List String
  image : List Img
  detailed_caption : List String
  json : List TrainRecord

/-- The loop body of `preprocess`, iterating `i` over `range(batch_size)`
(the second `Nat` argument counts the remaining iterations).  Out-of-range
column indexing raises Python's `IndexError`, modelled by the designated
library error `indexError`; `save` models `Image.save` and may fail.  Each
iteration records the save it performs and the JSON record it appends, in
source order: index `imgid`, save the image, then append the record. -/
def preprocessAux {E Img : Type} (save : String → Img → Except E Unit) (indexError : E)
    (imgids : List String) (images : List Img) (captions : List String)
    (user_prompt : String) : Nat → Nat → Except E (List TrainRecord × List (String × Img))
  | _, 0 => Except.ok ([], [])
  | i, r + 1 =>
    match imgids[i]? with
    | none => Except.error indexError
    | some idv =>
      match images[i]? with
      | none => Except.error indexError
      | some imgv =>
        (save ("llava_dataset/images/" ++ (idv ++ ".jpg")) imgv).bind fun _ =>
          match captions[i]? with
          | none => Except.error indexError
          | some capv =>
            (preprocessAux save indexError imgids images captions user_prompt
                (i + 1) r).map
              fun rs =>
                ({ id := idv, image := idv ++ ".jpg",
                   conversations := [⟨"human", "<image>" ++ "\n" ++ user_prompt⟩,
                                     ⟨"gpt", capv⟩] } :: rs.1,
                 ("llava_dataset/images/" ++ (idv ++ ".jpg"), imgv) :: rs.2)

/-- `preprocess(batch, batch_size, user_prompt)` from the fine-tuning
notebook.  It resets `batch["json"]` to `[]`, runs the loop
`for i in range(batch_size)` and returns the updated batch; the list of
performed image saves (path, image) is returned alongside. -/
def preprocess {E Img : Type} (save : String → Img → Except E Unit) (indexError : E)
    (batch : Batch Img) (batch_size : Nat) (user_prompt : String) :
    Except E (Batch Img × List (String × Img)) :=
  (preprocessAux save indexError batch.imgid batch.image batch.detailed_caption
      user_prompt 0 batch_size).map
    fun rs => ({ batch with json := rs.1 }, rs.2)

/-- An `Image.save` stand-in that always succeeds. -/
def okSave {Img : Type} : String → Img → Except Unit Unit := fun _ _ => Except.ok ()

/-- A filesystem path, as a list of components. -/
abbrev FsPath := List String

/-- A filesystem, as the set (list) of existing paths. -/
abbrev FileSystem := List FsPath

/-- All nonempty component-prefixes of a path, i.e. the directories that
`mkdir(parents=True)` guarantees to exist afterwards. -/
def ancestors (p : FsPath) : List FsPath :=
  (List.range p.length).map fun k => p.take (k + 1)

/-- `Path.mkdir(parents=True)`: fails iff the target already exists,
otherwise creates the directory and any missing ancestors. -/
def mkdirParents (p : FsPath) (fs : FileSystem) : Except Unit FileSystem :=
  if p ∈ fs then Except.error () else Except.ok (ancestors p ++ fs)

/-- `prepare_dataset_path(dataset_dir)` from the fine-tuning notebook: two
existence-guarded `mkdir(parents=True)` calls, first on the dataset directory
and then on its `images` subdirectory (the second guard consults the state
left by the first call).  The delegated `mkdir` is the parameter `mkdirP`. -/
def prepare_dataset_path {E : Type} (mkdirP : FsPath → FileSystem → Except E FileSystem)
    (dataset_dir : FsPath) (fs : FileSystem) : Except E FileSystem :=
  (if dataset_dir ∈ fs then Except.ok fs else mkdirP dataset_dir fs).bind fun fs1 =>
    if dataset_dir ++ ["images"] ∈ fs1 then Except.ok fs1
    else mkdirP (dataset_dir ++ ["images"]) fs1

/-- The Llama-3 end-of-sequence token used by the monkey patch. -/
def EOS_TOKEN : String := "<|eot_id|>"

/-- `conv.default_conversation.roles[0]` as set in the notebook. -/
def userRole : String := "<|start_header_id|>user<|end_header_id|>\n\n"

/-- `conv.default_conversation.roles[1]` as set in the notebook. -/
def assistantRole : String := "<|start_header_id|>assistant<|end_header_id|>\n\n"

/-- Python `str.lower()` restricted to the ASCII lowering relevant here. -/
def lowerStr (s : String) : String := ⟨s.data.map Char.toLower⟩

/-- The sender-to-role mapping inside `patched_fn`: `"human"` (case
insensitively) maps to the user role, `"gpt"` to the assistant role, anything
else to the literal `"unknown"`. -/
def role_of (from_str : String) : String :=
  if lowerStr from_str = "human" then userRole
  else if lowerStr from_str = "gpt" then assistantRole
  else "unknown"

/-- The overwritten value of one sentence inside `patched_fn`:
`EOS_TOKEN + from_str + sentence["value"]`. -/
def sentenceVal (s : Turn) : String := EOS_TOKEN ++ role_of s.from_ ++ s.value

/-- A sentence after `patched_fn` has processed it (the in-place mutation
`sentence["value"] = EOS_TOKEN + from_str + sentence["value"]`). -/
def sentenceUpd (s : Turn) : Turn := { s with value := sentenceVal s }

/-- The loop body of `patched_fn`: extend the accumulated conversation (only
when `get_conversation` is set) and record the mutated sentence. -/
def patchedStep (get_conversation : Bool) (acc : String × List Turn) (s : Turn) :
    String × List Turn :=
  ((if get_conversation then acc.1 ++ sentenceVal s else acc.1),
   acc.2 ++ [sentenceUpd s])

/-- `patched_fn(header, source, get_conversation=True)` from the fine-tuning
notebook, the monkey-patch replacement for the library's
`_add_speaker_and_signal`.  It returns the built conversation string
(`header`, then each mutated sentence value when `get_conversation` is set,
then one final `EOS_TOKEN`) together with the mutated source list. -/
def patched_fn (header : String) (source : List Turn) (get_conversation : Bool) :
    String × List Turn :=
  let res := source.foldl (patchedStep get_conversation) (header, [])
  (res.1 ++ EOS_TOKEN, res.2)

/-- Concatenation of a list of strings (left to right). -/
def joinStrs : List String → String
  | [] => ""
  | s :: rest => s ++ joinStrs rest

/-- The three artifacts persisted at the end of the fine-tuning notebook. -/
inductive Artifact
  | model
  | tokenizer
  | imageProcessor
deriving DecidableEq

/-- One observable effect of the merge-and-publish cells. -/
inductive HubEffect
  | loadAdapter (base adapterDir : String)
  | mergeAndUnload
  | toBFloat16
  | saveDir (a : Artifact) (dir : String)
  | pushHub (a : Artifact) (repo : String)
deriving DecidableEq

/-- `x.save_pretrained(merged_path, repo_id=..., push_to_hub=...)`: saves the
artifact into the directory and, per the library's documented behaviour,
additionally pushes it to the hub repository iff `push_to_hub` is set. -/
def save_pretrained (a : Artifact) (dir repo_id : String) (push_to_hub : Bool) :
    List HubEffect :=
  [HubEffect.saveDir a dir] ++ (if push_to_hub then [HubEffect.pushHub a repo_id] else [])

/-- The final two cells of the fine-tuning notebook as an effect trace:
`PeftModel.from_pretrained(model_path, output_dir)`,
`merge_and_unload().bfloat16()`, then `save_pretrained` on the model, the
tokenizer and the image processor, all with the same `merged_path`,
`repo_id` and `push_to_hub` arguments. -/
def mergeAndPublish (model_path output_dir merged_path repo_id : String)
    (push_to_hub : Bool) : List HubEffect :=
  [HubEffect.loadAdapter model_path output_dir, HubEffect.mergeAndUnload,
   HubEffect.toBFloat16]
    ++ save_pretrained Artifact.model merged_path repo_id push_to_hub
    ++ save_pretrained Artifact.tokenizer merged_path repo_id push_to_hub
    ++ save_pretrained Artifact.imageProcessor merged_path repo_id push_to_hub

/-- Whether an effect is a local directory save. -/
def isSaveDir : HubEffect → Bool
  | HubEffect.saveDir _ _ => true
  | _ => false

/- ===================== substring counting ===================== -/

/-- Number of positions of `l` at which the pattern `p` occurs (overlapping
occurrences counted separately). -/
def countOcc (p : List Char) : List Char → Nat
  | [] => 0
  | c :: cs => (if p <+: (c :: cs) then 1 else 0) + countOcc p cs

/-- Occurrence count lifted to strings. -/
def strCount (p s : String) : Nat := countOcc p.data s.data

/- ===================== helper lemmas ===================== -/

theorem strExt {s t : String} (h : s.data = t.data) : s = t := by
  cases s; cases t; exact congrArg String.mk h

theorem countOcc_cons (p : List Char) (c : Char) (cs : List Char) :
    countOcc p (c :: cs) = (if p <+: (c :: cs) then 1 else 0) + countOcc p cs := rfl

/-- A pattern no longer than `l` is a prefix of `l ++ b` iff it is a prefix
of `l`. -/
theorem pre_append_of_le {p l b : List Char} (h : p.length ≤ l.length) :
    p <+: (l ++ b) ↔ p <+: l := by
  constructor
  · intro hp
    have hq : p = (l ++ b).take p.length := List.prefix_iff_eq_take.mp hp
    rw [ List.take_append_eq_append_take, Nat.sub_eq_zero_of_le h, List.take_zero,
      List.append_nil] at hq
    exact hq ▸ List.take_prefix p.length l
  · intro hp
    exact hp.trans (List.prefix_append l b)

/-- If `p` occurs at the very start of `t ++ b` and `t` is at most as long as
`p`, then `t` is the corresponding initial segment of `p`. -/
theorem straddle_take {p t b : List Char} (hlen : t.length ≤ p.length)
    (hp : p <+: t ++ b) : t = p.take t.length := by
  obtain ⟨s, hs⟩ := hp
  have h1 := congrArg (List.take t.length) hs
  rw [ List.take_append_eq_append_take, Nat.sub_eq_zero_of_le hlen, List.take_zero,
    List.append_nil, List.take_left] at h1
  exact h1.symm

/-- Complement of `straddle_take`: the rest of the pattern starts `b`. -/
theorem straddle_drop {p t b : List Char} (hlen : t.length ≤ p.length)
    (hp : p <+: t ++ b) : p.drop t.length <+: b := by
  have ht := straddle_take hlen hp
  have hp3 : p <+: p.take t.length ++ b := by rw [ ← ht]; exact hp
  have hp2 : p.take t.length ++ p.drop t.length <+: p.take t.length ++ b := by
    rw [ List.take_append_drop]; exact hp3
  exact ( List.prefix_append_right_inj (p.take t.length)).mp hp2

/-- No occurrence of `p` can straddle the boundary `a | b` when no short
nonempty suffix of `a` is an initial segment of `p`. -/
theorem noStraddleSuffixCond {p a : List Char}
    (h : ∀ t ∈ a.tails, t ≠ [] → t.length < p.length → ¬ t <+: p) (b : List Char) :
    ∀ t, t <:+ a → t ≠ [] → t.length < p.length → ¬ p <+: (t ++ b) := by
  intro t hts hne hlen hp
  have ht := straddle_take (Nat.le_of_lt hlen) hp
  have htp : t <+: p := by rw [ ht]; exact List.take_prefix t.length p
  exact h t (( List.mem_tails t a).mpr hts) hne hlen htp

/-- No occurrence of `p` can straddle the boundary `a | b` when `b` starts
with a character that occurs in `p` only at position zero. -/
theorem noStraddleHeadCond {p b : List Char} (c : Char) (hb : b.head? = some c)
    (hc : ∀ k ∈ List.range p.length, 0 < k → (p.drop k).head? ≠ some c) :
    ∀ t, t ≠ [] → t.length < p.length → ¬ p <+: (t ++ b) := by
  intro t hne hlen hp
  have hd := straddle_drop (Nat.le_of_lt hlen) hp
  have h0 : 0 < t.length := List.length_pos.mpr hne
  have hcons := List.drop_eq_getElem_cons hlen
  have hk := hc t.length (List.mem_range.mpr hlen) h0
  rw [ hcons] at hd hk
  obtain ⟨b', hb'⟩ : ∃ b', b = c :: b' := by
    cases b with
    | nil => simp at hb
    | cons x xs =>
      rw [ List.head?_cons, Option.some.injEq] at hb
      exact ⟨xs, by rw [ hb]⟩
  subst hb'
  have h1 := ( List.cons_prefix_cons.mp hd).1
  exact hk (by rw [ List.head?_cons, h1])

/-- Occurrence counting distributes over an append across which the pattern
cannot straddle. -/
theorem countOcc_append {p : List Char} (b : List Char) :
    ∀ a : List Char,
      (∀ t, t <:+ a → t ≠ [] → t.length < p.length → ¬ p <+: (t ++ b)) →
      countOcc p (a ++ b) = countOcc p a + countOcc p b
  | [], _ => by simp [countOcc]
  | c :: a', h => by
    have IH := countOcc_append b a' (fun t ht hne hlen =>
      h t (ht.trans (List.suffix_cons c a')) hne hlen)
    rw [ List.cons_append, countOcc_cons, countOcc_cons, IH]
    by_cases hcase : p.length ≤ (c :: a').length
    · have hiff := @pre_append_of_le p (c :: a') b hcase
      rw [ ← List.cons_append]
      by_cases hp : p <+: (c :: a')
      · rw [ if_pos (hiff.mpr hp), if_pos hp]; omega
      · rw [ if_neg (fun hx => hp (hiff.mp hx)), if_neg hp]; omega
    · have hno := h (c :: a') (List.suffix_refl _) (by simp) (Nat.lt_of_not_le hcase)
      rw [ ← List.cons_append, if_neg hno,
        if_neg (fun hp => hcase (List.IsPrefix.length_le hp))]
      omega

/-- The character data of the built prompt, split at the system prompt, the
merged user-header-plus-image-placeholder segment, and the user prompt. -/
theorem prompt_data (s u : String) :
    (preprocess_prompt s u).data
      = ("<|begin_of_text|><|start_header_id|>system<|end_header_id|>\n\n" : String).data
        ++ (s.data
          ++ (("<|eot_id|><|start_header_id|>user<|end_header_id|>\n\n<image>\n" : String).data
            ++ (u.data
              ++ ("<|eot_id|><|start_header_id|>assistant<|end_header_id|>\n\n" : String).data))) := by
  simp only [preprocess_prompt, String.data_append, List.append_assoc]
  rfl

/-- The image placeholder occurs exactly once in the built prompt whenever
neither input contains it. -/
theorem countOcc_prompt (s u : String)
    (hs : countOcc ("<image>" : String).data s.data = 0)
    (hu : countOcc ("<image>" : String).data u.data = 0) :
    countOcc ("<image>" : String).data (preprocess_prompt s u).data = 1 := by
  have h1 : ∀ t ∈ ("<|begin_of_text|><|start_header_id|>system<|end_header_id|>\n\n" : String).data.tails,
      t ≠ [] → t.length < ("<image>" : String).data.length →
      ¬ t <+: ("<image>" : String).data := by decide
  have h3 : ∀ t ∈ ("<|eot_id|><|start_header_id|>user<|end_header_id|>\n\n<image>\n" : String).data.tails,
      t ≠ [] → t.length < ("<image>" : String).data.length →
      ¬ t <+: ("<image>" : String).data := by decide
  have hc : ∀ k ∈ List.range ("<image>" : String).data.length, 0 < k →
      (("<image>" : String).data.drop k).head? ≠ some '<' := by decide
  have hd4 : (("<|eot_id|><|start_header_id|>assistant<|end_header_id|>\n\n" : String).data).head?
      = some '<' := by decide
  have hd2 : ((("<|eot_id|><|start_header_id|>user<|end_header_id|>\n\n<image>\n" : String).data)
      ++ (u.data ++ ("<|eot_id|><|start_header_id|>assistant<|end_header_id|>\n\n" : String).data)).head?
      = some '<' := by
    rw [ List.head?_append]
    have hm : (("<|eot_id|><|start_header_id|>user<|end_header_id|>\n\n<image>\n" : String).data).head?
        = some '<' := by decide
    rw [ hm]
    rfl
  rw [ prompt_data,
    countOcc_append _ _ (noStraddleSuffixCond h1 _),
    countOcc_append _ _ (fun t _ hne hlen => noStraddleHeadCond '<' hd2 hc t hne hlen),
    countOcc_append _ _ (noStraddleSuffixCond h3 _),
    countOcc_append _ _ (fun t _ hne hlen => noStraddleHeadCond '<' hd4 hc t hne hlen),
    hs, hu]
  decide

/- ===================== claim theorems ===================== -/

/-- Claim C2: for every pair of strings, `preprocess_prompt` returns exactly
the concatenation of the fixed system header, the system prompt, the fixed
user header ending in the image placeholder and a newline, the user prompt,
and the fixed assistant header — hence deterministic with exact delimiter
placement — and, whenever neither input contains `"<image>"`, the output
contains the image placeholder token exactly once. -/
theorem claim_C2 (s u : String) :
    preprocess_prompt s u
        = "<|begin_of_text|><|start_header_id|>system<|end_header_id|>\n\n" ++ s
          ++ "<|eot_id|><|start_header_id|>user<|end_header_id|>\n\n<image>\n" ++ u
          ++ "<|eot_id|><|start_header_id|>assistant<|end_header_id|>\n\n"
      ∧ (strCount "<image>" s = 0 → strCount "<image>" u = 0 →
          strCount "<image>" (preprocess_prompt s u) = 1) := by
  constructor
  · apply strExt
    rw [ prompt_data]
    simp only [String.data_append, List.append_assoc]
  · intro hs hu
    exact countOcc_prompt s u hs hu

/-- Witness for C2 at the notebook's own system and user prompts. -/
theorem claim_C2_witness :
    strCount "<image>" "Sen yardımsever bir asistansın." = 0
      ∧ strCount "<image>" "Görüntüyü detaylı olarak açıkla." = 0
      ∧ strCount "<image>"
          (preprocess_prompt "Sen yardımsever bir asistansın."
            "Görüntüyü detaylı olarak açıkla.") = 1 :=
  ⟨by decide, by decide,
    (claim_C2 "Sen yardımsever bir asistansın." "Görüntüyü detaylı olarak açıkla.").2
      (by decide) (by decide)⟩

/-- Claim C7: the generation configuration passed to the single generation
call is a flat mapping holding exactly the keys `do_sample` (false) and
`max_new_tokens` (256), with no sampling-temperature key. -/
theorem claim_C7 :
    generation_config.map Prod.fst = ["do_sample", "max_new_tokens"]
      ∧ generation_config.lookup "do_sample" = some (GenValue.bool false)
      ∧ generation_config.lookup "max_new_tokens" = some (GenValue.nat 256)
      ∧ generation_config.lookup "temperature" = none := by
  refine ⟨rfl, rfl, rfl, rfl⟩

/-- Claim C10: `download_image` never inspects the HTTP status: whenever the
GET returns a response, the body bytes are handed to the image decoder
unchanged (whatever the status), two responses with identical bodies yield
identical results, and a decoding failure is the only error surfaced for a
body the decoder rejects. -/
theorem claim_C10 {E Bytes Img : Type}
    (imageOpen : Bytes → Except E Img) (url : String) :
    (∀ (get : String → Except E (Response Bytes)) (r : Response Bytes),
        get url = Except.ok r →
        download_image get imageOpen url = imageOpen r.content)
      ∧ (∀ (get get₂ : String → Except E (Response Bytes)) (r r₂ : Response Bytes),
          get url = Except.ok r → get₂ url = Except.ok r₂ →
          r.content = r₂.content →
          download_image get imageOpen url = download_image get₂ imageOpen url)
      ∧ (∀ (get : String → Except E (Response Bytes)) (r : Response Bytes) (e : E),
          get url = Except.ok r → imageOpen r.content = Except.error e →
          download_image get imageOpen url = Except.error e) := by
  refine ⟨?_, ?_, ?_⟩
  · intro get r hget
    unfold download_image
    rw [ hget]
    rfl
  · intro get get₂ r r₂ hget hget₂ hcontent
    unfold download_image
    rw [ hget, hget₂]
    show imageOpen r.content = imageOpen r₂.content
    rw [ hcontent]
  · intro get r e hget hopen
    unfold download_image
    rw [ hget]
    exact hopen

/-- Witness for C10: a 404 response whose body decodes fine is decoded, and
an undecodable body surfaces exactly the decoder's error. -/
theorem claim_C10_witness :
    download_image (fun _ => Except.ok (Response.mk 404 7))
        (fun b => if b = 7 then Except.ok "img" else Except.error 0) "u"
      = Except.ok "img" :=
  (@claim_C10 Nat Nat String
      (fun b => if b = 7 then Except.ok "img" else Except.error 0) "u").1
    (fun _ => Except.ok (Response.mk 404 7)) (Response.mk 404 7) rfl

/-- Unfolding of the `patched_fn` loop: the conversation accumulates the
mutated sentence values (when requested) and the processed list accumulates
the mutated sentences. -/
theorem patched_loop (gc : Bool) :
    ∀ (source : List Turn) (conv : String) (acc : List Turn),
      source.foldl (patchedStep gc) (conv, acc)
        = ((if gc then conv ++ joinStrs (source.map sentenceVal) else conv),
           acc ++ source.map sentenceUpd)
  | [], conv, acc => by
    cases gc <;> simp [joinStrs]
  | s :: rest, conv, acc => by
    rw [ List.foldl_cons]
    have hstep : patchedStep gc (conv, acc) s
        = ((if gc then conv ++ sentenceVal s else conv), acc ++ [sentenceUpd s]) := rfl
    rw [ hstep, patched_loop gc rest]
    cases gc
    · simp [joinStrs]
    · simp [joinStrs, String.append_assoc]

/-- Claim C4: with the default `get_conversation=True`, the patched
replacement of `_add_speaker_and_signal` returns the header followed by, for
each turn in order, the end-of-sequence token, the mapped role header
(user role for `"human"`, assistant role for `"gpt"`, the literal
`"unknown"` otherwise) and the turn's original text, with one extra
end-of-sequence token appended, so the conversation always ends in the
end-of-sequence token. -/
theorem claim_C4 (header : String) (source : List Turn) :
    (patched_fn header source true).1
        = header
          ++ joinStrs (source.map fun s => EOS_TOKEN ++ role_of s.from_ ++ s.value)
          ++ EOS_TOKEN
      ∧ role_of "human" = userRole
      ∧ role_of "gpt" = assistantRole
      ∧ (∀ f, lowerStr f ≠ "human" → lowerStr f ≠ "gpt" → role_of f = "unknown")
      ∧ EOS_TOKEN.data <:+ (patched_fn header source true).1.data := by
  have hfun : (fun s : Turn => EOS_TOKEN ++ role_of s.from_ ++ s.value) = sentenceVal := rfl
  have hfst : (patched_fn header source true).1
      = header ++ joinStrs (source.map sentenceVal) ++ EOS_TOKEN := by
    unfold patched_fn
    rw [ patched_loop true source header []]
    rfl
  refine ⟨?_, rfl, rfl, ?_, ?_⟩
  · rw [ hfun, hfst]
  · intro f h1 h2
    unfold role_of
    rw [ if_neg h1, if_neg h2]
  · rw [ hfst, String.data_append]
    exact List.suffix_append _ _

/-- Witness for C4: an unmapped sender gets the literal role `"unknown"`. -/
theorem claim_C4_witness :
    lowerStr "system" ≠ "human" ∧ lowerStr "system" ≠ "gpt"
      ∧ role_of "system" = "unknown" :=
  ⟨by decide, by decide,
    (claim_C4 "" []).2.2.2.1 "system" (by decide) (by decide)⟩

/-- Claim C9: `patched_fn` mutates its source in place — for either value of
`get_conversation` every turn's value is overwritten to the end-of-sequence
token, the role prefix, then the original text (the sender is kept); hence
the original texts are not preserved, and a second application to the
already-mutated list yields doubly prefixed values, not the same result. -/
theorem claim_C9 (header : String) (source : List Turn) (gc : Bool) :
    (∀ s : Turn, (sentenceUpd s).from_ = s.from_
        ∧ (sentenceUpd s).value = EOS_TOKEN ++ role_of s.from_ ++ s.value)
      ∧ (patched_fn header source gc).2 = source.map sentenceUpd
      ∧ (patched_fn header (source.map sentenceUpd) gc).2
          = source.map (fun s => sentenceUpd (sentenceUpd s))
      ∧ (source ≠ [] →
          source.map (fun s => sentenceUpd (sentenceUpd s)) ≠ source.map sentenceUpd) := by
  refine ⟨fun s => ⟨rfl, rfl⟩, ?_, ?_, ?_⟩
  · unfold patched_fn
    rw [ patched_loop gc source header []]
    simp
  · unfold patched_fn
    rw [ patched_loop gc (source.map sentenceUpd) header []]
    simp [List.map_map]
  · intro hne heq
    cases source with
    | nil => exact hne rfl
    | cons s rest =>
      simp only [List.map_cons, List.cons.injEq] at heq
      have hval := congrArg Turn.value heq.1
      simp only [sentenceUpd, sentenceVal] at hval
      have hlen := congrArg String.length hval
      simp only [String.length_append] at hlen
      have hEOS : EOS_TOKEN.length = 10 := rfl
      omega

/-- Witness for C9: one `"human"` turn is mutated, and re-applying the
patched function does not reproduce the same list. -/
theorem claim_C9_witness :
    (patched_fn "h" [⟨"human", "v"⟩] true).2 = [⟨"human", "v"⟩].map sentenceUpd
      ∧ [⟨"human", "v"⟩].map (fun s => sentenceUpd (sentenceUpd s))
          ≠ [⟨"human", "v"⟩].map sentenceUpd :=
  ⟨(claim_C9 "h" [⟨"human", "v"⟩] true).2.1,
   (claim_C9 "h" [⟨"human", "v"⟩] true).2.2.2 (by decide)⟩

/-- A nonempty path is among its own ancestors. -/
theorem self_mem_ancestors {d : FsPath} (h : d ≠ []) : d ∈ ancestors d := by
  unfold ancestors
  have hl : 0 < d.length := List.length_pos.mpr h
  refine List.mem_map.mpr ⟨d.length - 1, List.mem_range.mpr (by omega), ?_⟩
  rw [ Nat.sub_add_cancel hl, List.take_length]

/-- `prepare_dataset_path` when the dataset directory already exists. -/
theorem prepare_eq_of_mem {E : Type} (mkdirP : FsPath → FileSystem → Except E FileSystem)
    (d : FsPath) (fs : FileSystem) (h : d ∈ fs) :
    prepare_dataset_path mkdirP d fs
      = if d ++ ["images"] ∈ fs then Except.ok fs else mkdirP (d ++ ["images"]) fs := by
  unfold prepare_dataset_path
  rw [ if_pos h]
  rfl

/-- `prepare_dataset_path` when the dataset directory is missing. -/
theorem prepare_eq_of_not_mem {E : Type} (mkdirP : FsPath → FileSystem → Except E FileSystem)
    (d : FsPath) (fs : FileSystem) (h : ¬ d ∈ fs) :
    prepare_dataset_path mkdirP d fs
      = (mkdirP d fs).bind (fun fs1 =>
          if d ++ ["images"] ∈ fs1 then Except.ok fs1
          else mkdirP (d ++ ["images"]) fs1) := by
  unfold prepare_dataset_path
  rw [ if_neg h]

/-- A run of `prepare_dataset_path` on a state that already holds both
directories changes nothing; the degenerate empty path is also a no-op. -/
theorem prepare_noop (d : FsPath) (fs' : FileSystem) (him : d ++ ["images"] ∈ fs')
    (hd : d ∈ fs' ∨ d = []) : prepare_dataset_path mkdirParents d fs' = Except.ok fs' := by
  rcases hd with hd | hd
  · rw [ prepare_eq_of_mem _ _ _ hd, if_pos him]
  · subst hd
    by_cases h0 : ([] : FsPath) ∈ fs'
    · rw [ prepare_eq_of_mem _ _ _ h0, if_pos him]
    · rw [ prepare_eq_of_not_mem _ _ _ h0]
      have hmk : mkdirParents [] fs' = Except.ok fs' := by
        unfold mkdirParents
        rw [ if_neg h0]
        simp [ancestors]
      rw [ hmk]
      show (if ([] : FsPath) ++ ["images"] ∈ fs' then Except.ok fs'
          else mkdirParents (([] : FsPath) ++ ["images"]) fs') = _
      rw [ if_pos him]

/-- `prepare_dataset_path` with the concrete `mkdir` model always succeeds,
and afterwards the images directory exists (and the dataset directory too,
when its path is nonempty). -/
theorem prepare_run (d : FsPath) (fs : FileSystem) :
    ∃ fs', prepare_dataset_path mkdirParents d fs = Except.ok fs'
      ∧ d ++ ["images"] ∈ fs' ∧ (d ∈ fs' ∨ d = []) := by
  have him_self : d ++ ["images"] ∈ ancestors (d ++ ["images"]) :=
    self_mem_ancestors (by simp)
  by_cases hd : d ∈ fs
  · rw [ prepare_eq_of_mem _ _ _ hd]
    by_cases him : d ++ ["images"] ∈ fs
    · exact ⟨fs, by rw [ if_pos him], him, Or.inl hd⟩
    · refine ⟨ancestors (d ++ ["images"]) ++ fs, ?_, ?_, Or.inl ?_⟩
      · rw [ if_neg him]
        unfold mkdirParents
        rw [ if_neg him]
      · exact List.mem_append.mpr (Or.inl him_self)
      · exact List.mem_append.mpr (Or.inr hd)
  · have hmk : mkdirParents d fs = Except.ok (ancestors d ++ fs) := by
      unfold mkdirParents
      rw [ if_neg hd]
    have hstep : prepare_dataset_path mkdirParents d fs
        = (if d ++ ["images"] ∈ ancestors d ++ fs then Except.ok (ancestors d ++ fs)
           else mkdirParents (d ++ ["images"]) (ancestors d ++ fs)) := by
      rw [ prepare_eq_of_not_mem _ _ _ hd, hmk]
      rfl
    by_cases him : d ++ ["images"] ∈ ancestors d ++ fs
    · refine ⟨ancestors d ++ fs, ?_, him, ?_⟩
      · rw [ hstep, if_pos him]
      · by_cases hdnil : d = []
        · exact Or.inr hdnil
        · exact Or.inl (List.mem_append.mpr (Or.inl (self_mem_ancestors hdnil)))
    · refine ⟨ancestors (d ++ ["images"]) ++ (ancestors d ++ fs), ?_, ?_, ?_⟩
      · rw [ hstep, if_neg him]
        unfold mkdirParents
        rw [ if_neg him]
      · exact List.mem_append.mpr (Or.inl him_self)
      · by_cases hdnil : d = []
        · exact Or.inr hdnil
        · exact Or.inl (List.mem_append.mpr (Or.inr
            (List.mem_append.mpr (Or.inl (self_mem_ancestors hdnil)))))

/-- Claim C8: `prepare_dataset_path` is idempotent — when both directories
already exist it changes nothing and raises no error, and running it twice
has exactly the effect of running it once. -/
theorem claim_C8 (d : FsPath) (fs : FileSystem) :
    (d ∈ fs → d ++ ["images"] ∈ fs →
        prepare_dataset_path mkdirParents d fs = Except.ok fs)
      ∧ ∃ fs', prepare_dataset_path mkdirParents d fs = Except.ok fs'
          ∧ prepare_dataset_path mkdirParents d fs' = Except.ok fs' := by
  constructor
  · intro h1 h2
    exact prepare_noop d fs h2 (Or.inl h1)
  · obtain ⟨fs', h1, h2, h3⟩ := prepare_run d fs
    exact ⟨fs', h1, prepare_noop d fs' h2 h3⟩

/-- Witness for C8 at the notebook's `llava_dataset` directory with both
directories present. -/
theorem claim_C8_witness :
    prepare_dataset_path mkdirParents ["llava_dataset"]
        [["llava_dataset"], ["llava_dataset", "images"]]
      = Except.ok [["llava_dataset"], ["llava_dataset", "images"]] :=
  (claim_C8 ["llava_dataset"] [["llava_dataset"], ["llava_dataset", "images"]]).1
    (by decide) (by decide)

theorem exceptBind_ok {E A B : Type} (a : A) (f : A → Except E B) :
    (Except.ok a : Except E A).bind f = f a := rfl

theorem exceptBind_error {E A B : Type} (e : E) (f : A → Except E B) :
    (Except.error e : Except E A).bind f = Except.error e := rfl

theorem exceptMap_ok {E A B : Type} (a : A) (f : A → B) :
    (Except.ok a : Except E A).map f = Except.ok (f a) := rfl

theorem exceptMap_error {E A B : Type} (e : E) (f : A → B) :
    (Except.error e : Except E A).map f = Except.error e := rfl

/-- Characterization of a successful run of the `preprocess` loop: `r`
records and `r` save operations come out, and the `j`-th of each is built
from exactly the `(i+j)`-th row of the batch columns. -/
theorem preprocessAux_ok {E Img : Type} (save : String → Img → Except E Unit)
    (ix : E) (ids : List String) (imgs : List Img) (caps : List String) (up : String) :
    ∀ (r i : Nat) (recs : List TrainRecord) (sv : List (String × Img)),
      preprocessAux save ix ids imgs caps up i r = Except.ok (recs, sv) →
      recs.length = r ∧ sv.length = r
        ∧ ∀ j, j < r →
            ∃ idv imgv capv,
              ids[i + j]? = some idv ∧ imgs[i + j]? = some imgv
                ∧ caps[i + j]? = some capv
                ∧ recs[j]? = some ⟨idv, idv ++ ".jpg",
                    [⟨"human", "<image>" ++ "\n" ++ up⟩, ⟨"gpt", capv⟩]⟩
                ∧ sv[j]? = some ("llava_dataset/images/" ++ (idv ++ ".jpg"), imgv) := by
  intro r
  induction r with
  | zero =>
    intro i recs sv h
    simp only [preprocessAux, Except.ok.injEq, Prod.mk.injEq] at h
    obtain ⟨h1, h2⟩ := h
    subst h1
    subst h2
    exact ⟨rfl, rfl, fun j hj => absurd hj (by omega)⟩
  | succ r ih =>
    intro i recs sv h
    simp only [preprocessAux] at h
    cases hids : ids[i]? with
    | none => simp only [ hids] at h; exact absurd h (by simp)
    | some idv =>
      simp only [ hids] at h
      cases himgs : imgs[i]? with
      | none => simp only [ himgs] at h; exact absurd h (by simp)
      | some imgv =>
        simp only [ himgs] at h
        cases hsave : save ("llava_dataset/images/" ++ (idv ++ ".jpg")) imgv with
        | error e =>
          rw [ hsave, exceptBind_error] at h
          exact absurd h (by simp)
        | ok u =>
          rw [ hsave, exceptBind_ok] at h
          cases hcaps : caps[i]? with
          | none => simp only [ hcaps] at h; exact absurd h (by simp)
          | some capv =>
            simp only [ hcaps] at h
            cases haux : preprocessAux save ix ids imgs caps up (i + 1) r with
            | error e =>
              rw [ haux, exceptMap_error] at h
              exact absurd h (by simp)
            | ok pr =>
              rw [ haux, exceptMap_ok] at h
              obtain ⟨recs', sv'⟩ := pr
              simp only [Except.ok.injEq, Prod.mk.injEq] at h
              obtain ⟨h1, h2⟩ := h
              subst h1
              subst h2
              obtain ⟨hlr, hls, hspec⟩ := ih (i + 1) recs' sv' haux
              refine ⟨by simp [ hlr], by simp [ hls], ?_⟩
              intro j hj
              cases j with
              | zero =>
                refine ⟨idv, imgv, capv, ?_, ?_, ?_, ?_, ?_⟩ <;>
                  simp [ hids, himgs, hcaps]
              | succ j' =>
                obtain ⟨idv', imgv', capv', ha, hb, hc, hd, he⟩ :=
                  hspec j' (by omega)
                have hidx : i + (j' + 1) = i + 1 + j' := by omega
                refine ⟨idv', imgv', capv', ?_, ?_, ?_, ?_, ?_⟩
                · rw [ hidx]; exact ha
                · rw [ hidx]; exact hb
                · rw [ hidx]; exact hc
                · rw [ List.getElem?_cons_succ]; exact hd
                · rw [ List.getElem?_cons_succ]; exact he

/-- The `preprocess` loop succeeds whenever the batch columns hold enough
rows and the saves succeed. -/
theorem preprocessAux_total {Img : Type} (ids : List String) (imgs : List Img)
    (caps : List String) (up : String) :
    ∀ (r i : Nat), i + r ≤ ids.length → i + r ≤ imgs.length → i + r ≤ caps.length →
      ∃ pr, preprocessAux (@okSave Img) () ids imgs caps up i r
        = Except.ok pr := by
  intro r
  induction r with
  | zero => exact fun i _ _ _ => ⟨([], []), rfl⟩
  | succ r ih =>
    intro i hi1 hi2 hi3
    obtain ⟨pr, haux⟩ := ih (i + 1) (by omega) (by omega) (by omega)
    cases hres : preprocessAux okSave () ids imgs caps up i (r + 1) with
    | ok pr2 => exact ⟨pr2, rfl⟩
    | error e =>
      simp only [preprocessAux,
        List.getElem?_eq_getElem (show i < ids.length by omega),
        List.getElem?_eq_getElem (show i < imgs.length by omega),
        List.getElem?_eq_getElem (show i < caps.length by omega), okSave,
        exceptBind_ok] at hres
      rw [ haux, exceptMap_ok] at hres
      exact absurd hres (by simp)

/-- Claim C1, amended: for a batch whose columns each hold exactly
`batch_size` rows (every full batch produced by `ds.map`), `preprocess`
succeeds and emits exactly one JSON record and performs exactly one image
save per input row.  (For a shorter final batch the claim fails; see the
counterexample.) -/
theorem claim_C1 {Img : Type} (batch : Batch Img) (batch_size : Nat) (up : String)
    (h1 : batch.imgid.length = batch_size) (h2 : batch.image.length = batch_size)
    (h3 : batch.detailed_caption.length = batch_size) :
    ∃ b' sv, preprocess okSave () batch batch_size up = Except.ok (b', sv)
      ∧ b'.json.length = batch_size ∧ sv.length = batch_size := by
  obtain ⟨pr, haux⟩ := preprocessAux_total batch.imgid batch.image
    batch.detailed_caption up batch_size 0 (by omega) (by omega) (by omega)
  obtain ⟨recs, sv⟩ := pr
  obtain ⟨hlr, hls, -⟩ := preprocessAux_ok okSave () batch.imgid batch.image
    batch.detailed_caption up batch_size 0 recs sv haux
  refine ⟨{ batch with json := recs }, sv, ?_, hlr, hls⟩
  unfold preprocess
  rw [ haux, exceptMap_ok]

/-- Witness for the amended C1 at a two-row batch mapped with
`batch_size = 2`. -/
theorem claim_C1_witness :
    ∃ b' sv,
      preprocess okSave () (Batch.mk ["a", "b"] [(0 : Nat), 1] ["ca", "cb"] []) 2 "p"
          = Except.ok (b', sv)
        ∧ b'.json.length = 2 ∧ sv.length = 2 :=
  claim_C1 (Batch.mk ["a", "b"] [(0 : Nat), 1] ["ca", "cb"] []) 2 "p" rfl rfl rfl

/-- Counterexample to C1 as stated: a final batch with fewer rows than the
configured `batch_size = 1000` makes the loop index past the end of the
columns, so the call fails with Python's `IndexError` and emits nothing —
not one record per row. -/
theorem claim_C1_counterexample :
    preprocess okSave () (Batch.mk ["a"] [(0 : Nat)] ["ca"] []) 1000 "p"
      = Except.error () := rfl

/-- Claim C3: every JSON record emitted by `preprocess` carries the row's
identifier as `id`, the identifier plus `".jpg"` as `image`, and exactly two
conversation turns — a `"human"` turn holding the image placeholder, a
newline and the user instruction, then a `"gpt"` turn holding the row's
detailed caption; in particular the human turn contains the placeholder. -/
theorem claim_C3 {E Img : Type} (save : String → Img → Except E Unit) (ix : E)
    (batch : Batch Img) (batch_size : Nat) (up : String) (b' : Batch Img)
    (sv : List (String × Img))
    (h : preprocess save ix batch batch_size up = Except.ok (b', sv)) :
    ∀ j, j < b'.json.length →
      ∃ rec idv capv,
        b'.json[j]? = some rec
          ∧ batch.imgid[j]? = some idv
          ∧ batch.detailed_caption[j]? = some capv
          ∧ rec.id = idv
          ∧ rec.image = idv ++ ".jpg"
          ∧ rec.conversations = [⟨"human", "<image>" ++ "\n" ++ up⟩, ⟨"gpt", capv⟩]
          ∧ ∀ t, rec.conversations.head? = some t →
              ("<image>" : String).data <:+: t.value.data := by
  intro j hj
  unfold preprocess at h
  cases haux : preprocessAux save ix batch.imgid batch.image batch.detailed_caption
      up 0 batch_size with
  | error e =>
    rw [ haux, exceptMap_error] at h
    exact absurd h (by simp)
  | ok pr =>
    rw [ haux, exceptMap_ok] at h
    obtain ⟨recs, sv0⟩ := pr
    simp only [Except.ok.injEq, Prod.mk.injEq] at h
    obtain ⟨hb, hs⟩ := h
    have hjson : b'.json = recs := by rw [ ← hb]
    obtain ⟨hlr, hls, hspec⟩ := preprocessAux_ok save ix batch.imgid batch.image
      batch.detailed_caption up batch_size 0 recs sv0 haux
    rw [ hjson, hlr] at hj
    obtain ⟨idv, imgv, capv, ha, hbg, hc, hd, he⟩ := hspec j hj
    rw [ Nat.zero_add] at ha hbg hc
    refine ⟨⟨idv, idv ++ ".jpg", [⟨"human", "<image>" ++ "\n" ++ up⟩, ⟨"gpt", capv⟩]⟩,
      idv, capv, ?_, ha, hc, rfl, rfl, rfl, ?_⟩
    · rw [ hjson]; exact hd
    · intro t ht
      simp only [List.head?_cons, Option.some.injEq] at ht
      subst ht
      have hpre : ("<image>" : String).data
          <+: (("<image>" ++ "\n" ++ up) : String).data := by
        simp only [String.data_append, List.append_assoc]
        exact List.prefix_append _ _
      exact hpre.isInfix

/-- Witness for C3 at a one-row batch: the single emitted record has the
required shape. -/
theorem claim_C3_witness :
    ∃ rec idv capv,
      (Batch.mk ["x"] [(5 : Nat)] ["cap"]
          [⟨"x", "x.jpg", [⟨"human", "<image>\np"⟩, ⟨"gpt", "cap"⟩]⟩]).json[0]?
          = some rec
        ∧ (Batch.mk ["x"] [(5 : Nat)] ["cap"] []).imgid[0]? = some idv
        ∧ (Batch.mk ["x"] [(5 : Nat)] ["cap"] []).detailed_caption[0]? = some capv
        ∧ rec.id = idv
        ∧ rec.image = idv ++ ".jpg"
        ∧ rec.conversations = [⟨"human", "<image>" ++ "\n" ++ "p"⟩, ⟨"gpt", capv⟩]
        ∧ ∀ t, rec.conversations.head? = some t →
            ("<image>" : String).data <:+: t.value.data :=
  claim_C3 okSave () (Batch.mk ["x"] [(5 : Nat)] ["cap"] []) 1 "p"
    (Batch.mk ["x"] [(5 : Nat)] ["cap"]
      [⟨"x", "x.jpg", [⟨"human", "<image>\np"⟩, ⟨"gpt", "cap"⟩]⟩])
    [("llava_dataset/images/x.jpg", 5)] rfl 0 (by decide)

/-- Claim C5: after the training loop the pipeline merges the adapters, then
persists model, tokenizer and image processor each once into the same single
output directory — all saves strictly after the merge — and pushes each of
the three artifacts to the hub repository iff `push_to_hub` is true. -/
theorem claim_C5 (model_path output_dir merged_path repo_id : String) (push : Bool) :
    ∃ pre post,
      mergeAndPublish model_path output_dir merged_path repo_id push
          = pre ++ HubEffect.mergeAndUnload :: post
        ∧ pre.filter isSaveDir = []
        ∧ post.filter isSaveDir
            = [HubEffect.saveDir Artifact.model merged_path,
               HubEffect.saveDir Artifact.tokenizer merged_path,
               HubEffect.saveDir Artifact.imageProcessor merged_path]
        ∧ (∀ a : Artifact,
            HubEffect.pushHub a repo_id
                ∈ mergeAndPublish model_path output_dir merged_path repo_id push
              ↔ push = true) := by
  refine ⟨[HubEffect.loadAdapter model_path output_dir],
    HubEffect.toBFloat16
      :: (save_pretrained Artifact.model merged_path repo_id push
        ++ save_pretrained Artifact.tokenizer merged_path repo_id push
        ++ save_pretrained Artifact.imageProcessor merged_path repo_id push),
    ?_, rfl, ?_, ?_⟩
  · simp [mergeAndPublish, List.append_assoc]
  · cases push <;> rfl
  · intro a
    cases a <;> cases push <;> simp [mergeAndPublish, save_pretrained]

/-- Any error surfaced by the `preprocess` loop is verbatim either the
indexing error or an error returned by a delegated `Image.save` call. -/
theorem preprocessAux_error {E Img : Type} (save : String → Img → Except E Unit)
    (ix : E) (ids : List String) (imgs : List Img) (caps : List String) (up : String) :
    ∀ (r i : Nat) (e : E),
      preprocessAux save ix ids imgs caps up i r = Except.error e →
      e = ix ∨ ∃ path imgv, save path imgv = Except.error e := by
  intro r
  induction r with
  | zero =>
    intro i e h
    simp only [preprocessAux] at h
    exact absurd h (by simp)
  | succ r ih =>
    intro i e h
    simp only [preprocessAux] at h
    cases hids : ids[i]? with
    | none =>
      simp only [ hids] at h
      simp only [Except.error.injEq] at h
      exact Or.inl h.symm
    | some idv =>
      simp only [ hids] at h
      cases himgs : imgs[i]? with
      | none =>
        simp only [ himgs] at h
        simp only [Except.error.injEq] at h
        exact Or.inl h.symm
      | some imgv =>
        simp only [ himgs] at h
        cases hsave : save ("llava_dataset/images/" ++ (idv ++ ".jpg")) imgv with
        | error e' =>
          rw [ hsave, exceptBind_error] at h
          simp only [Except.error.injEq] at h
          refine Or.inr ⟨"llava_dataset/images/" ++ (idv ++ ".jpg"), imgv, ?_⟩
          rw [ hsave, h]
        | ok u =>
          rw [ hsave, exceptBind_ok] at h
          cases hcaps : caps[i]? with
          | none =>
            simp only [ hcaps] at h
            simp only [Except.error.injEq] at h
            exact Or.inl h.symm
          | some capv =>
            simp only [ hcaps] at h
            cases haux : preprocessAux save ix ids imgs caps up (i + 1) r with
            | error e' =>
              rw [ haux, exceptMap_error] at h
              simp only [Except.error.injEq] at h
              have hrec := ih (i + 1) e' haux
              rw [ h] at hrec
              exact hrec
            | ok pr =>
              rw [ haux, exceptMap_ok] at h
              exact absurd h (by simp)

/-- Claim C6: none of the repository's functions handles, retries or
transforms failures.  `preprocess_prompt` and `patched_fn` perform no
delegated calls at all (they are pure, total functions above), and for every
function that does delegate — `download_image`, `inference`,
`prepare_dataset_path`, `preprocess` — an error raised by a delegated call
surfaces verbatim as the function's own result. -/
theorem claim_C6 :
    (∀ (E Bytes Img : Type) (get : String → Except E (Response Bytes))
        (imageOpen : Bytes → Except E Img) (url : String) (e : E),
        (get url = Except.error e →
            download_image get imageOpen url = Except.error e)
          ∧ ∀ r, get url = Except.ok r → imageOpen r.content = Except.error e →
              download_image get imageOpen url = Except.error e)
      ∧ (∀ (E Ids ImgT OutIds Img Cfg : Type) (tok : String → Except E Ids)
          (proc : Img → Except E ImgT) (gen : Ids → ImgT → Cfg → Except E OutIds)
          (dec : OutIds → Except E (List String)) (image : Img) (prompt : String)
          (cfg : Cfg) (e : E),
          inference tok proc gen dec image prompt cfg = Except.error e →
          tok prompt = Except.error e
            ∨ ∃ ids, tok prompt = Except.ok ids
                ∧ (proc image = Except.error e
                  ∨ ∃ it, proc image = Except.ok it
                      ∧ (gen ids it cfg = Except.error e
                        ∨ ∃ out, gen ids it cfg = Except.ok out
                            ∧ dec out = Except.error e)))
      ∧ (∀ (E : Type) (mkdirP : FsPath → FileSystem → Except E FileSystem)
          (d : FsPath) (fs : FileSystem) (e : E),
          (¬ d ∈ fs → mkdirP d fs = Except.error e →
              prepare_dataset_path mkdirP d fs = Except.error e)
            ∧ (d ∈ fs → ¬ d ++ ["images"] ∈ fs →
                mkdirP (d ++ ["images"]) fs = Except.error e →
                prepare_dataset_path mkdirP d fs = Except.error e)
            ∧ ∀ fs1, ¬ d ∈ fs → mkdirP d fs = Except.ok fs1 →
                ¬ d ++ ["images"] ∈ fs1 →
                mkdirP (d ++ ["images"]) fs1 = Except.error e →
                prepare_dataset_path mkdirP d fs = Except.error e)
      ∧ (∀ (E Img : Type) (save : String → Img → Except E Unit) (ix : E)
          (batch : Batch Img) (batch_size : Nat) (up : String) (e : E),
          preprocess save ix batch batch_size up = Except.error e →
          e = ix ∨ ∃ path imgv, save path imgv = Except.error e) := by
  refine ⟨?_, ?_, ?_, ?_⟩
  · intro E Bytes Img get imageOpen url e
    constructor
    · intro hget
      unfold download_image
      rw [ hget, exceptBind_error]
    · intro r hget hopen
      unfold download_image
      rw [ hget, exceptBind_ok]
      exact hopen
  · intro E Ids ImgT OutIds Img Cfg tok proc gen dec image prompt cfg e h
    unfold inference at h
    cases htok : tok prompt with
    | error e' =>
      left
      rw [ htok, exceptBind_error] at h
      simp only [Except.error.injEq] at h
      rw [ h]
    | ok ids =>
      right
      refine ⟨ids, rfl, ?_⟩
      rw [ htok, exceptBind_ok] at h
      cases hproc : proc image with
      | error e' =>
        left
        rw [ hproc, exceptBind_error] at h
        simp only [Except.error.injEq] at h
        rw [ h]
      | ok it =>
        right
        refine ⟨it, rfl, ?_⟩
        rw [ hproc, exceptBind_ok] at h
        cases hgen : gen ids it cfg with
        | error e' =>
          left
          rw [ hgen, exceptBind_error] at h
          simp only [Except.error.injEq] at h
          rw [ h]
        | ok out =>
          right
          refine ⟨out, rfl, ?_⟩
          rw [ hgen, exceptBind_ok] at h
          exact h
  · intro E mkdirP d fs e
    refine ⟨?_, ?_, ?_⟩
    · intro hd hmk
      rw [ prepare_eq_of_not_mem _ _ _ hd, hmk, exceptBind_error]
    · intro hd him hmk
      rw [ prepare_eq_of_mem _ _ _ hd, if_neg him]
      exact hmk
    · intro fs1 hd hmk him hmk2
      rw [ prepare_eq_of_not_mem _ _ _ hd, hmk, exceptBind_ok, if_neg him]
      exact hmk2
  · intro E Img save ix batch batch_size up e h
    unfold preprocess at h
    cases haux : preprocessAux save ix batch.imgid batch.image batch.detailed_caption
        up 0 batch_size with
    | error e' =>
      rw [ haux, exceptMap_error] at h
      simp only [Except.error.injEq] at h
      have hrec := preprocessAux_error save ix batch.imgid batch.image
        batch.detailed_caption up batch_size 0 e' haux
      rw [ h] at hrec
      exact hrec
    | ok pr =>
      rw [ haux, exceptMap_ok] at h
      exact absurd h (by simp)

/-- Witness for C6: a failing GET surfaces its own error code unchanged from
`download_image`. -/
theorem claim_C6_witness :
    download_image (fun _ => (Except.error 3 : Except Nat (Response Nat)))
        (fun _ => Except.ok 0) "u" = Except.error 3 :=
  (claim_C6.1 Nat Nat Nat (fun _ => Except.error 3) (fun _ => Except.ok 0) "u" 3).1 rfl
